import Mathlib

/-!
# Ma-Poche ledger engine: shallow embedding and verification

This file embeds the pure computation layer of `src/src/App.tsx` (a personal
finance tracker) in Lean 4 and settles the specification claims about it.

Modelling conventions:
* JavaScript numbers are modelled by `JsNum`: a rational (`fin q`) or one of
  the non-finite values `nan`, `inf`, `ninf`.  Floating-point rounding and
  overflow are abstracted away (amounts are "signed decimals" per the spec);
  the special-value algebra of `+`, `-`, comparisons, `Math.abs`, `Math.max`,
  `||`, `??`, and `Number.isFinite` is modelled exactly.
* Runtime values that may flow into the `amount` field (the import path
  performs no validation) are modelled by `JsVal`: a number, a string, `null`,
  `undefined`, or a boolean.
* `Number(string)` string-to-number coercion is implemented following the
  ECMAScript StringNumericLiteral grammar (whitespace trimming, empty string
  to 0, signed decimal with optional fraction and exponent, `Infinity`
  literals, unsigned hex/octal/binary literals, anything else to NaN).
-/

/-- A JavaScript number: a finite value (abstracted as a rational) or one of
the IEEE special values NaN, +Infinity, -Infinity. -/
inductive JsNum where
  | fin (q : ℚ)
  | nan
  | inf
  | ninf
deriving DecidableEq, Repr

namespace JsNum

/-- `Number.isFinite`. -/
def isFinite : JsNum → Bool
  | fin _ => true
  | _ => false

/-- Is this value NaN? -/
def isNaN : JsNum → Bool
  | nan => true
  | _ => false

end JsNum

/-- JavaScript addition `a + b` on numbers: NaN is absorbing, opposite
infinities give NaN, an infinity plus a finite value keeps the infinity. -/
def jadd : JsNum → JsNum → JsNum
  | .nan, _ => .nan
  | _, .nan => .nan
  | .inf, .ninf => .nan
  | .ninf, .inf => .nan
  | .inf, _ => .inf
  | _, .inf => .inf
  | .ninf, _ => .ninf
  | _, .ninf => .ninf
  | .fin a, .fin b => .fin (a + b)

/-- JavaScript unary minus on numbers. -/
def jneg : JsNum → JsNum
  | .fin q => .fin (-q)
  | .nan => .nan
  | .inf => .ninf
  | .ninf => .inf

/-- JavaScript subtraction `a - b`. -/
def jsub (a b : JsNum) : JsNum := jadd a (jneg b)

/-- JavaScript strict less-than `a < b` on numbers: any comparison involving
NaN is false. -/
def jlt : JsNum → JsNum → Bool
  | .nan, _ => false
  | _, .nan => false
  | .ninf, .ninf => false
  | .ninf, _ => true
  | _, .ninf => false
  | .inf, _ => false
  | _, .inf => true
  | .fin a, .fin b => decide (a < b)

/-- JavaScript `a > b`. -/
def jgt (a b : JsNum) : Bool := jlt b a

/-- The JavaScript idiom `x || 0` applied to a number `x`: NaN (and ±0) are
falsy, so NaN becomes `0`; every other number, including ±Infinity, is kept
unchanged.  (In our rational model `0 || 0 = 0` is the identity case.) -/
def jsOrZero : JsNum → JsNum
  | .nan => .fin 0
  | x => x

/-- `Math.abs`. -/
def jabs : JsNum → JsNum
  | .fin q => .fin |q|
  | .nan => .nan
  | .inf => .inf
  | .ninf => .inf

/-- `Math.max` of two numbers: NaN is absorbing, otherwise the larger value
in the usual order with `inf` on top and `ninf` at the bottom. -/
def jmax : JsNum → JsNum → JsNum
  | .nan, _ => .nan
  | _, .nan => .nan
  | .inf, _ => .inf
  | _, .inf => .inf
  | .ninf, b => b
  | a, .ninf => a
  | .fin a, .fin b => .fin (max a b)

/-- A JavaScript runtime value that can appear in a transaction's `amount`
field.  The TypeScript type says `number`, but the import path (`JSON.parse`
with no validation) can store strings, `null`, booleans, or leave the field
absent (`undefined`).  (Arrays/objects in that position are not modelled.) -/
inductive JsVal where
  | num (n : JsNum)
  | str (s : String)
  | null
  | undef
  | boolean (b : Bool)
deriving DecidableEq, Repr

/-- ECMAScript whitespace accepted by `Number(string)` / `String.prototype.trim`
(the common characters; exotic Unicode space separators are not modelled). -/
def jsIsWhite (c : Char) : Bool :=
  c = ' ' || c = '\t' || c = '\n' || c = '\r' ||
  c = '\x0b' || c = '\x0c' || c = ' ' || c = '﻿'

/-- Trim JS whitespace from both ends of a character list. -/
def jsTrimChars (l : List Char) : List Char :=
  ((l.dropWhile jsIsWhite).reverse.dropWhile jsIsWhite).reverse

/-- `String.prototype.trim`. -/
def jsTrim (s : String) : String := ⟨jsTrimChars s.data⟩

/-- Value of a list of decimal digit characters. -/
def charsToNat (l : List Char) : Nat :=
  l.foldl (fun a c => a * 10 + (c.toNat - 48)) 0

/-- Nonempty and all decimal digits. -/
def allDigits (l : List Char) : Bool := !l.isEmpty && l.all (·.isDigit)

/-- Parse the mantissa of a StrDecimalLiteral: `digits`, `digits.digits`,
`digits.`, or `.digits`. -/
def parseFrac (l : List Char) : Option ℚ :=
  let p := l.span (fun c => !(c == '.'))
  match p.2 with
  | [] => if allDigits l then some ((charsToNat l : ℚ)) else none
  | _ :: fracR =>
    let ip := p.1
    if ip.all (·.isDigit) && fracR.all (·.isDigit) &&
        (!ip.isEmpty || !fracR.isEmpty) then
      some ((charsToNat ip : ℚ) + (charsToNat fracR : ℚ) / (10 : ℚ) ^ fracR.length)
    else none

/-- Parse an optionally signed exponent (the part after `e`/`E`). -/
def parseExpInt (l : List Char) : Option ℤ :=
  match l with
  | '+' :: r => if allDigits r then some ((charsToNat r : ℤ)) else none
  | '-' :: r => if allDigits r then some (-(charsToNat r : ℤ)) else none
  | r => if allDigits r then some ((charsToNat r : ℤ)) else none

/-- Parse an unsigned StrDecimalLiteral with optional exponent. -/
def parseDecimal (l : List Char) : Option ℚ :=
  let p := l.span (fun c => !(c == 'e' || c == 'E'))
  match p.2 with
  | [] => parseFrac l
  | _ :: expPart =>
    match parseFrac p.1, parseExpInt expPart with
    | some q, some e => some (q * (10 : ℚ) ^ e)
    | _, _ => none

/-- Digit value in a given base, if valid. -/
def radixDigit (base : Nat) (c : Char) : Option Nat :=
  let v :=
    if c.isDigit then some (c.toNat - 48)
    else if 'a' ≤ c ∧ c ≤ 'f' then some (c.toNat - 87)
    else if 'A' ≤ c ∧ c ≤ 'F' then some (c.toNat - 55)
    else none
  match v with
  | some d => if d < base then some d else none
  | none => none

/-- Parse a nonempty digit string in the given base. -/
def parseRadix (base : Nat) (l : List Char) : Option ℚ :=
  if l.isEmpty then none
  else
    l.foldl (fun acc c =>
      match acc, radixDigit base c with
      | some a, some d => some (a * base + d)
      | _, _ => none) (some 0) |>.map (fun n => (n : ℚ))

/-- Unsigned numeric literal after an optional sign: `Infinity` or a decimal
literal (hex/octal/binary literals do not admit a sign in JS). -/
def parseUnsigned (l : List Char) : Option JsNum :=
  if l = "Infinity".data then some .inf
  else (parseDecimal l).map .fin

/-- The body of `Number(string)` after trimming: StrNumericLiteral. -/
def parseSNL (l : List Char) : Option JsNum :=
  match l with
  | '+' :: r => parseUnsigned r
  | '-' :: r => (parseUnsigned r).map jneg
  | '0' :: 'x' :: r => (parseRadix 16 r).map .fin
  | '0' :: 'X' :: r => (parseRadix 16 r).map .fin
  | '0' :: 'o' :: r => (parseRadix 8 r).map .fin
  | '0' :: 'O' :: r => (parseRadix 8 r).map .fin
  | '0' :: 'b' :: r => (parseRadix 2 r).map .fin
  | '0' :: 'B' :: r => (parseRadix 2 r).map .fin
  | r => parseUnsigned r

/-- `Number(s)` for a string `s`: trim; empty means `0`; otherwise parse as a
StrNumericLiteral, `NaN` on failure.  (Double rounding/overflow of very large
literals is not modelled: finite literals stay exact rationals.) -/
def jsStrToNumber (s : String) : JsNum :=
  let l := jsTrimChars s.data
  if l.isEmpty then .fin 0
  else (parseSNL l).getD .nan

/-- `Number(v)` for a runtime value `v`. -/
def JsVal.toNumber : JsVal → JsNum
  | .num n => n
  | .str s => jsStrToNumber s
  | .null => .fin 0
  | .undef => .nan
  | .boolean b => if b then .fin 1 else .fin 0


/-- The closed set of entry kinds (`TxType` in the source). -/
inductive TxType where
  | Income
  | Expenses
  | Savings
  | Investments
deriving DecidableEq, Repr

/-- The string form of a kind, as stored in a transaction record. -/
def TxType.str : TxType → String
  | .Income => "Income"
  | .Expenses => "Expenses"
  | .Savings => "Savings"
  | .Investments => "Investments"

/-- The fixed per-kind category table (`CATEGORIES` in the source). -/
def CATEGORIES : TxType → List String
  | .Income => ["Salary", "Scholarship", "Family Support", "Side hustle"]
  | .Expenses => ["Rent", "Transport", "Groceries", "Phone & Internet",
      "Subscriptions", "School & Books", "Health", "Leisure"]
  | .Savings => ["Emergency Fund", "Travel", "Other Savings"]
  | .Investments => ["Crypto", "Stocks", "Other Investment"]

/-- A ledger entry (`Transaction` in the source).  The `type` field is stored
as a string and the `amount` as a raw runtime value, because the import path
stores whatever the JSON file contained without validation; `details := none`
models the absent/`undefined` field. -/
structure Transaction where
  id : String
  date : String
  type : String
  category : String
  amount : JsVal
  details : Option String
deriving DecidableEq, Repr

/-- `monthKeyFromDate`: the `YYYY-MM` prefix, `dateStr.slice(0, 7)`. -/
def monthKeyFromDate (dateStr : String) : String := ⟨dateStr.data.take 7⟩

/-- `sumByType`: filter by kind then `reduce((acc, t) => acc + (Number(t.amount) || 0), 0)`. -/
def sumByType (transactions : List Transaction) (type : TxType) : JsNum :=
  (transactions.filter (fun t => t.type == type.str)).foldl
    (fun acc t => jadd acc (jsOrZero t.amount.toNumber)) (.fin 0)

/-- `sumForMonthTypeCategory`: filter by derived month key, kind and category,
then the same reduction. -/
def sumForMonthTypeCategory (transactions : List Transaction) (monthKey : String)
    (type : TxType) (category : String) : JsNum :=
  (transactions.filter (fun t =>
      monthKeyFromDate t.date == monthKey && t.type == type.str &&
      t.category == category)).foldl
    (fun acc t => jadd acc (jsOrZero t.amount.toNumber)) (.fin 0)

/-- The budget store: a flat string-keyed map (`BudgetStore` in the source).
Values are numbers; a key that was never written is absent. -/
def BudgetStore := String → Option JsNum

/-- The budget key `` `${monthKey}|${type}|${category}` ``. -/
def budgetKey (monthKey : String) (t : TxType) (cat : String) : String :=
  monthKey ++ "|" ++ t.str ++ "|" ++ cat

/-- The empty budget store (the `{}` fallback state). -/
def emptyBudgets : BudgetStore := fun _ => none

/-- `getBudget`: `budgets[key] ?? 0`. -/
def getBudget (budgets : BudgetStore) (monthKey : String) (t : TxType)
    (cat : String) : JsNum :=
  (budgets (budgetKey monthKey t cat)).getD (.fin 0)

/-- `setBudget`: store `Number.isFinite(value) ? value : 0` under the key
(object spread: every other key is unchanged, last write wins). -/
def setBudget (budgets : BudgetStore) (monthKey : String) (t : TxType)
    (cat : String) (value : JsNum) : BudgetStore :=
  fun k => if k = budgetKey monthKey t cat
    then some (if value.isFinite then value else .fin 0) else budgets k

/-- `monthBudgetTotal`: `CATEGORIES[t].reduce((acc, cat) => acc + getBudget(...), 0)`. -/
def monthBudgetTotal (budgets : BudgetStore) (monthKey : String) (t : TxType) : JsNum :=
  (CATEGORIES t).foldl (fun acc cat => jadd acc (getBudget budgets monthKey t cat)) (.fin 0)

/-- `monthTrackedTotal`: `CATEGORIES[t].reduce((acc, cat) => acc + sumForMonthTypeCategory(...), 0)`. -/
def monthTrackedTotal (transactions : List Transaction) (monthKey : String)
    (t : TxType) : JsNum :=
  (CATEGORIES t).foldl
    (fun acc cat => jadd acc (sumForMonthTypeCategory transactions monthKey t cat)) (.fin 0)

/-- The Plan tab's variance for one kind (lines 793–795 of the source):
`budgetTotal - trackedTotal`. -/
def planVariance (transactions : List Transaction) (budgets : BudgetStore)
    (monthKey : String) (t : TxType) : JsNum :=
  jsub (monthBudgetTotal budgets monthKey t) (monthTrackedTotal transactions monthKey t)

/-- The add-transaction form state (`date`, `type`, `category`, `amount`,
`details` state hooks in the source; `amount` and `details` are free-text). -/
structure FormState where
  date : String
  type : TxType
  category : String
  amount : String
  details : String
deriving DecidableEq, Repr

/-- The transaction record `addTransaction` builds from the form state and
the parsed amount: details are trimmed, an all-whitespace details field
becomes `undefined`. -/
def newTxRecord (newId : String) (f : FormState) (n : JsNum) : Transaction :=
  { id := newId, date := f.date, type := f.type.str, category := f.category,
    amount := .num n,
    details := if jsTrim f.details == "" then none else some (jsTrim f.details) }

/-- `addTransaction`: parse the amount with `Number`, refuse (no-op) when the
date, kind or category is the empty string or the parsed amount is not finite;
otherwise prepend the new transaction.  The generated id
(`crypto.randomUUID()`) is passed in as a parameter. -/
def addTransaction (newId : String) (f : FormState)
    (prev : List Transaction) : List Transaction :=
  let n := jsStrToNumber f.amount
  if f.date == "" || f.type.str == "" || f.category == "" || !n.isFinite then prev
  else newTxRecord newId f n :: prev

/-- JS `Set` insertion: keep first occurrences, in encounter order. -/
def jsSetInsert (s : List String) (x : String) : List String :=
  if x ∈ s then s else s ++ [x]

/-- `allMonthsInTx`: the set of month keys of the transactions,
`Array.from(set).sort()` — sorted with the default (lexicographic) string
comparator.  The stable insertion sort models `Array.prototype.sort`. -/
def allMonthsInTx (transactions : List Transaction) : List String :=
  ((transactions.map (fun t => monthKeyFromDate t.date)).foldl jsSetInsert []).insertionSort (· ≤ ·)

/-- One row of the month-over-month series. -/
structure MonthRow where
  month : String
  income : JsNum
  expenses : JsNum
  savings : JsNum
  investments : JsNum
  net : JsNum
deriving DecidableEq, Repr

/-- The row `monthTotals` computes for one month: the four tracked totals and
`net = income - expenses - savings - investments`. -/
def mkMonthRow (transactions : List Transaction) (m : String) : MonthRow :=
  let income := monthTrackedTotal transactions m .Income
  let expenses := monthTrackedTotal transactions m .Expenses
  let savings := monthTrackedTotal transactions m .Savings
  let investments := monthTrackedTotal transactions m .Investments
  { month := m, income := income, expenses := expenses, savings := savings,
    investments := investments,
    net := jsub (jsub (jsub income expenses) savings) investments }

/-- `monthTotals`: one row per month of `allMonthsInTx`, in ascending order. -/
def monthTotals (transactions : List Transaction) : List MonthRow :=
  (allMonthsInTx transactions).map (mkMonthRow transactions)

/-- The all-zero fallback row for an unknown month. -/
def zeroMonthRow (m : String) : MonthRow :=
  { month := m, income := .fin 0, expenses := .fin 0, savings := .fin 0,
    investments := .fin 0, net := .fin 0 }

/-- `selectedMonthStats`: the `monthTotals` row whose month matches, or the
all-zero row with the requested month key. -/
def selectedMonthStats (transactions : List Transaction) (m : String) : MonthRow :=
  ((monthTotals transactions).find? (fun r => r.month == m)).getD (zeroMonthRow m)

/-- One row of the top-categories ranking: a category and its tracked total. -/
structure CatRow where
  category : String
  total : JsNum
deriving DecidableEq, Repr

/-- The order induced by the sort comparator `(a, b) => b.total - a.total`:
`jgeSort x y` holds when `x` may be placed before `y` (comparator `≤ 0`).
For comparable (non-NaN) totals this is exactly "x.total ≥ y.total" with
`inf` on top and `ninf` at the bottom.  A NaN total makes the comparator
return NaN, for which ECMAScript leaves the order implementation-defined; we
place NaN on top to obtain a total preorder.  (NaN totals never survive the
`total > 0` filter below, so this choice is unobservable in `topCategories`.) -/
def jgeSort : JsNum → JsNum → Bool
  | .nan, _ => true
  | _, .nan => false
  | .inf, _ => true
  | _, .inf => false
  | _, .ninf => true
  | .ninf, _ => false
  | .fin a, .fin b => decide (b ≤ a)

/-- The row ordering used by the `topExpenses` sort. -/
def rowLE (a b : CatRow) : Prop := jgeSort a.total b.total = true

instance : DecidableRel rowLE := fun _ _ => instDecidableEqBool _ _

/-- `topExpenses` generalized over the kind, as the spec's
`topCategories(monthKey, kind, limit)` describes it (the source instantiates
the kind to `Expenses` and the limit to 5): build a row per category of the
kind's fixed list, keep rows with `total > 0`, sort by the comparator
`(a, b) => b.total - a.total` (a stable sort, modelled by the stable
`insertionSort`), and truncate to the first 5. -/
def catRowsFor (transactions : List Transaction) (m : String) (t : TxType) : List CatRow :=
  (CATEGORIES t).map (fun c =>
    { category := c, total := sumForMonthTypeCategory transactions m t c })

def topCategories (transactions : List Transaction) (m : String) (t : TxType) : List CatRow :=
  (((catRowsFor transactions m t).filter
      (fun r => jgt r.total (.fin 0))).insertionSort rowLE).take 5

/-- `topExpenses` exactly as in the source: kind fixed to `Expenses`. -/
def topExpenses (transactions : List Transaction) (m : String) : List CatRow :=
  topCategories transactions m .Expenses

/-- `Number.isFinite(v) ? v : 0`. -/
def coerceFin : JsNum → ℚ
  | .fin q => q
  | _ => 0

/-- `BarChart`'s scale maximum (line 243):
`Math.max(1, ...series.flat().map((v) => (Number.isFinite(v) ? v : 0)))`.
Note: the raw values are used, not their absolute values. -/
def barChartMax (series : List (List JsNum)) : ℚ :=
  ((series.flatten).map coerceFin).foldl max 1

/-- `LineChart`'s scale maximum (line 258):
`Math.max(1, ...values.map((v) => Math.abs(v)))`. -/
def lineChartMax (values : List JsNum) : JsNum :=
  (values.map jabs).foldl jmax (.fin 1)

/-- A JSON value, as far as the scalar fields of a serialized transaction
need (the text layer of `JSON.stringify`/`JSON.parse` is a lossless encoding
of this tree and is not modelled separately). -/
inductive Json where
  | null
  | num (q : ℚ)
  | str (s : String)
  | bool (b : Bool)
deriving DecidableEq, Repr

/-- `JSON.stringify` of one field value: finite numbers, strings, booleans
and `null` are kept; NaN and ±Infinity serialize as `null`; an `undefined`
field is dropped from the object (`none`). -/
def encodeField : JsVal → Option Json
  | .num (.fin q) => some (.num q)
  | .num _ => some .null
  | .str s => some (.str s)
  | .null => some .null
  | .boolean b => some (.bool b)
  | .undef => none

/-- `JSON.stringify` of one transaction record: the serialized object as an
association list (insertion-ordered, like a JS object literal). -/
def encodeTx (t : Transaction) : List (String × Json) :=
  [("id", .str t.id), ("date", .str t.date), ("type", .str t.type),
    ("category", .str t.category)] ++
  (match encodeField t.amount with
    | some j => [("amount", j)]
    | none => []) ++
  (match t.details with
    | some d => [("details", Json.str d)]
    | none => [])

/-- Reading a parsed JSON field back as the runtime value later code
observes: an absent key reads as `undefined`. -/
def readField (j : Option Json) : JsVal :=
  match j with
  | none => .undef
  | some .null => .null
  | some (.num q) => .num (.fin q)
  | some (.str s) => .str s
  | some (.bool b) => .boolean b

/-- Reading a field the app treats as a string.  The import performs no
validation, so for objects this round-trip produces (`encodeTx` output) the
non-string branch is unreachable; `""` is an arbitrary junk value there. -/
def readStrField (j : Option Json) : String :=
  match j with
  | some (.str s) => s
  | _ => ""

/-- Reinterpreting one parsed JSON object as a `Transaction`, reading the
fields the way the application later accesses them. -/
def decodeTx (o : List (String × Json)) : Transaction :=
  { id := readStrField (o.lookup "id"), date := readStrField (o.lookup "date"),
    type := readStrField (o.lookup "type"),
    category := readStrField (o.lookup "category"),
    amount := readField (o.lookup "amount"),
    details := match o.lookup "details" with
      | some (.str s) => some s
      | _ => none }

/-- Export to JSON (`downloadJSON`, i.e. `JSON.stringify(transactions)`)
followed by import (`safeParseJSON` + `setTransactions`): the whole-collection
round trip.  Stringify output always parses, so the parse-failure fallback of
`safeParseJSON` is not taken on this path. -/
def exportThenImport (transactions : List Transaction) : List Transaction :=
  (transactions.map encodeTx).map decodeTx

/-- One budget edit as issued by the Plan tab input handler. -/
structure BudgetEdit where
  monthKey : String
  type : TxType
  category : String
  value : JsNum
deriving DecidableEq, Repr

/-- A sequence of `setBudget` calls applied in order. -/
def applyBudgetEdits (edits : List BudgetEdit) (b : BudgetStore) : BudgetStore :=
  edits.foldl (fun acc e => setBudget acc e.monthKey e.type e.category e.value) b

/-- Spec-side coercion (`specSumByKind` helper): the amount's numeric value
with every non-finite or non-numeric value treated as `0`. -/
def specCoerce (v : JsVal) : ℚ := coerceFin v.toNumber

/-- Modelled from the spec's words for claim C1, to be compared with the
source's `sumByType`: "the sum of `amount` (coerced to `0` when non-finite)
over entries with `kind = k`". -/
def specSumByKind (transactions : List Transaction) (k : TxType) : ℚ :=
  ((transactions.filter (fun t => t.type == k.str)).map (fun t => specCoerce t.amount)).sum

/-- The position of a category in its kind's fixed list (its declaration
order, the tie-break of the top-categories ranking). -/
def catIdx (t : TxType) (c : String) : ℕ := (CATEGORIES t).indexOf c

/-! ### Concrete fixtures used by witnesses and counterexamples -/

/-- An income entry whose stored amount is the string `"Infinity"` (storable
through import, which performs no validation): its numeric coercion is
+Infinity, which `|| 0` does not zero. -/
def c1Tx : Transaction :=
  { id := "t1", date := "2026-01-05", type := "Income", category := "Salary",
    amount := .str "Infinity", details := none }

/-- An ordinary finite-amount income entry. -/
def wTx1 : Transaction :=
  { id := "w1", date := "2026-02-01", type := "Income", category := "Salary",
    amount := .num (.fin 5), details := none }

/-- The spec's scenario entry: income 1000 on 2026-01-05. -/
def wTxIncome : Transaction :=
  { id := "a", date := "2026-01-05", type := "Income", category := "Salary",
    amount := .num (.fin 1000), details := none }

/-- The spec's scenario entry: expense 400 (Rent) on 2026-01-10. -/
def wTxRent : Transaction :=
  { id := "b", date := "2026-01-10", type := "Expenses", category := "Rent",
    amount := .num (.fin 400), details := none }

/-- An expense entry with a negative amount (a refund), total -50 for Rent. -/
def c3Tx : Transaction :=
  { id := "r", date := "2026-01-05", type := "Expenses", category := "Rent",
    amount := .num (.fin (-50)), details := none }

/-- An entry whose amount is the number NaN (representable as a collection
value, though JSON itself cannot carry it). -/
def c7Tx : Transaction :=
  { id := "n", date := "2026-01-05", type := "Expenses", category := "Rent",
    amount := .num .nan, details := none }

/-- The spec scenario's budget store: 500 allocated to 2026-01 Expenses/Rent. -/
def wBudget : BudgetStore :=
  fun k => if k = "2026-01|Expenses|Rent" then some (.fin 500) else none

/-- A form submission whose amount text is `"abc"`. -/
def c5Form : FormState :=
  { date := "2026-01-05", type := .Expenses, category := "Rent",
    amount := "abc", details := "" }

/-- A form submission whose amount text is empty. -/
def c10Form : FormState :=
  { date := "2026-01-05", type := .Expenses, category := "Rent",
    amount := "", details := "lunch" }

/-- Whether a runtime value survives a JSON round trip unchanged: everything
except a non-finite number does. -/
def jsonSafe : JsVal → Bool
  | .num n => n.isFinite
  | _ => true

/-! ## Basic facts about the JavaScript number model -/

set_option maxRecDepth 8000

example : jsStrToNumber "" = .fin 0 := by decide
example : jsStrToNumber "abc" = .nan := by decide
example : jsStrToNumber "Infinity" = .inf := by decide
example : jsStrToNumber "-Infinity" = .ninf := by decide
example : jsStrToNumber "1.2.3" = .nan := by decide
example : jsStrToNumber " 12 " = .fin 12 := by decide

theorem jadd_comm (a b : JsNum) : jadd a b = jadd b a := by
  cases a <;> cases b <;> simp [jadd] <;> ring

theorem jadd_assoc (a b c : JsNum) : jadd (jadd a b) c = jadd a (jadd b c) := by
  cases a <;> cases b <;> cases c <;> simp [jadd] <;> ring

theorem jadd_fin_fin (a b : ℚ) : jadd (.fin a) (.fin b) = .fin (a + b) := rfl

theorem jadd_right_comm (z a b : JsNum) :
    jadd (jadd z a) b = jadd (jadd z b) a := by
  rw [jadd_assoc, jadd_assoc, jadd_comm a b]

theorem jgeSort_refl (n : JsNum) : jgeSort n n = true := by
  cases n <;> simp [jgeSort]

/-- The sort order is total. -/
theorem jgeSort_total (a b : JsNum) : jgeSort a b = true ∨ jgeSort b a = true := by
  cases a <;> cases b <;> simp [jgeSort] <;> exact le_total _ _

/-- The sort order is transitive. -/
theorem jgeSort_trans {a b c : JsNum} (h₁ : jgeSort a b = true)
    (h₂ : jgeSort b c = true) : jgeSort a c = true := by
  cases a <;> cases b <;> cases c <;> simp_all [jgeSort] <;> exact le_trans h₂ h₁

instance : IsTotal CatRow rowLE := ⟨fun a b => jgeSort_total a.total b.total⟩

instance : IsTrans CatRow rowLE := ⟨fun _ _ _ h₁ h₂ => jgeSort_trans h₁ h₂⟩

/-! ## Claim C1: `sumByKind` and the coercion of non-finite amounts -/

/-- C1, counterexample: the claim says every non-finite amount is coerced to
`0`, so `sumByKind(Income)` of the single-entry list `[c1Tx]` would be
`fin 0` (the spec-side sum).  The code instead propagates the infinity:
`Number("Infinity") || 0` is `Infinity`, and the sum is `inf`, which is not
`fin` of anything. -/
theorem c1_counterexample :
    sumByType [c1Tx] .Income = .inf ∧
    sumByType [c1Tx] .Income ≠ .fin (specSumByKind [c1Tx] .Income) := by
  have h : sumByType [c1Tx] .Income = .inf := by decide
  exact ⟨h, by rw [h]; exact fun hc => JsNum.noConfusion hc⟩

/-- Auxiliary: the reduction over a list without infinite coercions produces
the finite spec-side sum. -/
theorem foldl_jadd_spec (l : List Transaction)
    (h : ∀ t ∈ l, t.amount.toNumber ≠ .inf ∧ t.amount.toNumber ≠ .ninf) :
    ∀ a : ℚ, l.foldl (fun acc t => jadd acc (jsOrZero t.amount.toNumber)) (.fin a) =
      .fin (a + (l.map (fun t => specCoerce t.amount)).sum) := by
  induction l with
  | nil => intro a; simp
  | cons t l ih =>
    intro a
    have ht := h t (List.mem_cons_self t l)
    have step : jadd (.fin a) (jsOrZero t.amount.toNumber) =
        .fin (a + specCoerce t.amount) := by
      unfold specCoerce
      cases hn : t.amount.toNumber with
      | fin q => simp [jsOrZero, jadd, coerceFin]
      | nan => simp [jsOrZero, jadd, coerceFin]
      | inf => exact absurd hn ht.1
      | ninf => exact absurd hn ht.2
    simp only [List.foldl_cons, step, List.map_cons, List.sum_cons]
    rw [ih (fun x hx => h x (List.mem_cons_of_mem t hx))]
    ring_nf

/-- C1 (amended): NaN and non-numeric amounts are coerced to `0`, but a
±Infinity numeric coercion propagates through the sum.  For every entry list
in which no amount coerces to ±Infinity, `sumByKind(k)` equals the finite sum
of the coerced amounts over entries with kind `k`, and the empty list yields
exactly `0`. -/
theorem sumByType_eq_spec_of_no_infinite (transactions : List Transaction) (k : TxType)
    (h : ∀ t ∈ transactions, t.amount.toNumber ≠ .inf ∧ t.amount.toNumber ≠ .ninf) :
    sumByType transactions k = .fin (specSumByKind transactions k) ∧
    sumByType [] k = .fin 0 := by
  constructor
  · unfold sumByType specSumByKind
    rw [foldl_jadd_spec _ (fun t ht => h t (List.mem_of_mem_filter ht)) 0]
    norm_num
  · rfl

/-- C1 witness: the amended theorem applied to a concrete one-entry list with
the finite amount 5. -/
theorem sumByType_eq_spec_witness :
    sumByType [wTx1] .Income = .fin (specSumByKind [wTx1] .Income) ∧
    sumByType [] .Income = .fin 0 :=
  sumByType_eq_spec_of_no_infinite [wTx1] .Income (by decide)

/-! ## Claim C8: order-independence of the partition sums -/

/-- C8: the sums are invariant under every permutation of the entry list —
both the by-kind sum and the month/kind/category sum give the same result on
any reordering, so entry insertion order never affects totals. -/
theorem sums_permutation_invariant (l₁ l₂ : List Transaction)
    (h : l₁.Perm l₂) (k : TxType) (m cat : String) :
    sumByType l₁ k = sumByType l₂ k ∧
    sumForMonthTypeCategory l₁ m k cat = sumForMonthTypeCategory l₂ m k cat := by
  constructor
  · exact (h.filter _).foldl_eq'
      (fun x _ y _ z => jadd_right_comm z (jsOrZero x.amount.toNumber)
        (jsOrZero y.amount.toNumber)) _
  · exact (h.filter _).foldl_eq'
      (fun x _ y _ z => jadd_right_comm z (jsOrZero x.amount.toNumber)
        (jsOrZero y.amount.toNumber)) _

/-- C8 witness: the invariance applied to a concrete two-entry list and its
reversal. -/
theorem sums_permutation_invariant_witness :
    sumByType [wTxIncome, wTxRent] .Expenses = sumByType [wTxRent, wTxIncome] .Expenses ∧
    sumForMonthTypeCategory [wTxIncome, wTxRent] "2026-01" .Expenses "Rent" =
      sumForMonthTypeCategory [wTxRent, wTxIncome] "2026-01" .Expenses "Rent" :=
  sums_permutation_invariant [wTxIncome, wTxRent] [wTxRent, wTxIncome]
    (by decide) .Expenses "2026-01" "Rent"

/-! ## Claim C2: the Plan tab variance -/

/-- C2: the variance the Plan tab reports for a month and kind is exactly
`monthBudgetTotal - monthTrackedTotal` (JS subtraction), and on finite totals
the sign convention is preserved: the variance is the rational `b - tr`,
positive exactly when tracked is under budget and negative exactly when over. -/
theorem planVariance_spec (transactions : List Transaction) (budgets : BudgetStore)
    (m : String) (t : TxType) :
    planVariance transactions budgets m t =
      jsub (monthBudgetTotal budgets m t) (monthTrackedTotal transactions m t) ∧
    ∀ b tr : ℚ, monthBudgetTotal budgets m t = .fin b →
      monthTrackedTotal transactions m t = .fin tr →
      planVariance transactions budgets m t = .fin (b - tr) ∧
      (0 < b - tr ↔ tr < b) ∧ (b - tr < 0 ↔ b < tr) := by
  refine ⟨rfl, fun b tr hb htr => ⟨?_, ?_, ?_⟩⟩
  · unfold planVariance
    rw [hb, htr]
    simp [jsub, jneg, jadd, sub_eq_add_neg]
  · constructor <;> intro <;> linarith
  · constructor <;> intro <;> linarith

/-- C2 witness: the spec scenario — budget 500 and tracked 400 for 2026-01
Expenses give variance `fin 100 = fin (500 - 400)`, positive since under
budget. -/
theorem planVariance_spec_witness :
    planVariance [wTxIncome, wTxRent] wBudget "2026-01" .Expenses =
      jsub (monthBudgetTotal wBudget "2026-01" .Expenses)
        (monthTrackedTotal [wTxIncome, wTxRent] "2026-01" .Expenses) ∧
    planVariance [wTxIncome, wTxRent] wBudget "2026-01" .Expenses =
      .fin (500 - 400) ∧
    (0 < (500 : ℚ) - 400 ↔ (400 : ℚ) < 500) ∧
    ((500 : ℚ) - 400 < 0 ↔ (500 : ℚ) < 400) := by
  have h := planVariance_spec [wTxIncome, wTxRent] wBudget "2026-01" .Expenses
  have hb : monthBudgetTotal wBudget "2026-01" .Expenses = .fin 500 := by
    with_unfolding_all decide
  have htr : monthTrackedTotal [wTxIncome, wTxRent] "2026-01" .Expenses = .fin 400 := by
    with_unfolding_all decide
  exact ⟨h.1, (h.2 500 400 hb htr).1, (h.2 500 400 hb htr).2.1, (h.2 500 400 hb htr).2.2⟩

/-! ## Claim C9: budget edits only store finite values -/

/-- Every value present in the store is finite. -/
def budgetsAllFinite (b : BudgetStore) : Prop :=
  ∀ k : String, (b k).all JsNum.isFinite = true

theorem budgetsAllFinite_empty : budgetsAllFinite emptyBudgets := by
  intro k; rfl

theorem budgetsAllFinite_setBudget {b : BudgetStore} (h : budgetsAllFinite b)
    (m : String) (t : TxType) (c : String) (v : JsNum) :
    budgetsAllFinite (setBudget b m t c v) := by
  intro k
  unfold setBudget
  by_cases hk : k = budgetKey m t c
  · simp only [hk, if_pos rfl, Option.all_some]
    cases hv : v.isFinite
    · simp [hv, JsNum.isFinite]
    · simp [hv]
  · simpa [hk] using h k

theorem budgetsAllFinite_applyEdits (edits : List BudgetEdit) :
    ∀ b : BudgetStore, budgetsAllFinite b → budgetsAllFinite (applyBudgetEdits edits b) := by
  induction edits with
  | nil => exact fun b h => h
  | cons e es ih =>
    intro b h
    exact ih _ (budgetsAllFinite_setBudget h e.monthKey e.type e.category e.value)

theorem jadd_finite {a b : JsNum} (ha : a.isFinite = true) (hb : b.isFinite = true) :
    (jadd a b).isFinite = true := by
  cases a <;> cases b <;> simp_all [jadd, JsNum.isFinite]

theorem getBudget_finite {b : BudgetStore} (h : budgetsAllFinite b)
    (m : String) (t : TxType) (c : String) : (getBudget b m t c).isFinite = true := by
  unfold getBudget
  cases hk : b (budgetKey m t c) with
  | none => rfl
  | some v =>
    have := h (budgetKey m t c)
    rw [hk] at this
    simpa using this

theorem monthBudgetTotal_finite {b : BudgetStore} (h : budgetsAllFinite b)
    (m : String) (t : TxType) : (monthBudgetTotal b m t).isFinite = true := by
  unfold monthBudgetTotal
  have step : ∀ (cats : List String) (acc : JsNum), acc.isFinite = true →
      (cats.foldl (fun acc cat => jadd acc (getBudget b m t cat)) acc).isFinite = true := by
    intro cats
    induction cats with
    | nil => exact fun acc hacc => hacc
    | cons c cs ih =>
      intro acc hacc
      exact ih _ (jadd_finite hacc (getBudget_finite h m t c))
  exact step (CATEGORIES t) (.fin 0) rfl

/-- C9: starting from the empty store, after any sequence of budget edits
every stored value is finite (`setBudget` coerces a non-finite input to `0`
before writing), and `monthBudgetTotal` over the resulting store is itself a
finite number — never NaN or Infinity. -/
theorem setBudget_finite_invariant (edits : List BudgetEdit) (k m : String) (t : TxType) :
    ((applyBudgetEdits edits emptyBudgets) k).all JsNum.isFinite = true ∧
    (monthBudgetTotal (applyBudgetEdits edits emptyBudgets) m t).isFinite = true := by
  have hall := budgetsAllFinite_applyEdits edits emptyBudgets budgetsAllFinite_empty
  exact ⟨hall k, monthBudgetTotal_finite hall m t⟩

/-! ## Claim C5: invalid form submissions are refused as no-ops -/

/-- C5: an entry-creation attempt with an empty date, kind, or category, or
whose amount text does not coerce to a finite number, leaves the collection
unchanged (and, being a total function, raises nothing). -/
theorem addTransaction_rejects_invalid (newId : String) (f : FormState)
    (prev : List Transaction)
    (h : f.date = "" ∨ f.type.str = "" ∨ f.category = "" ∨
      (jsStrToNumber f.amount).isFinite = false) :
    addTransaction newId f prev = prev := by
  have hguard : (f.date == "" || f.type.str == "" || f.category == "" ||
      !(jsStrToNumber f.amount).isFinite) = true := by
    rcases h with h | h | h | h <;> simp [h]
  simp [addTransaction, hguard]

/-- C5 witness: submitting the amount `"abc"` is refused; the collection is
unchanged. -/
theorem addTransaction_rejects_invalid_witness :
    addTransaction "x" c5Form [wTxIncome] = [wTxIncome] :=
  addTransaction_rejects_invalid "x" c5Form [wTxIncome] (by decide)

/-! ## Claim C10: an empty amount is accepted as 0 -/

/-- C10: with a non-empty date and category, a submission whose amount text
is the empty string is NOT refused: `Number("")` is `0`, which is finite, so
a transaction with amount exactly `0` is added to the collection. -/
theorem addTransaction_empty_amount_accepted (newId : String) (f : FormState)
    (prev : List Transaction) (hd : f.date ≠ "") (hc : f.category ≠ "")
    (ha : f.amount = "") :
    addTransaction newId f prev = newTxRecord newId f (.fin 0) :: prev := by
  have h0 : jsStrToNumber f.amount = .fin 0 := by rw [ha]; decide
  have htype : f.type.str ≠ "" := by cases f.type <;> decide
  simp [addTransaction, h0, hd, hc, htype, JsNum.isFinite]

/-- C10 witness: the empty amount with date and category filled appends the
0-amount transaction. -/
theorem addTransaction_empty_amount_witness :
    addTransaction "x" c10Form [] = [newTxRecord "x" c10Form (.fin 0)] :=
  addTransaction_empty_amount_accepted "x" c10Form []
    (by decide) (by decide) rfl

/-! ## Claim C6: `selectedMonthStats` never fails -/

theorem mem_jsSetInsert (acc : List String) (y x : String) :
    x ∈ jsSetInsert acc y ↔ x ∈ acc ∨ x = y := by
  unfold jsSetInsert
  by_cases hy : y ∈ acc
  · simp only [if_pos hy]
    constructor
    · exact Or.inl
    · rintro (h | rfl)
      · exact h
      · exact hy
  · simp [if_neg hy, List.mem_append]

theorem mem_foldl_jsSetInsert (l : List String) :
    ∀ (acc : List String) (x : String),
      x ∈ l.foldl jsSetInsert acc ↔ x ∈ acc ∨ x ∈ l := by
  induction l with
  | nil => simp
  | cons y l ih =>
    intro acc x
    rw [List.foldl_cons, ih, mem_jsSetInsert, List.mem_cons]
    tauto

theorem mem_allMonthsInTx (transactions : List Transaction) (m : String) :
    m ∈ allMonthsInTx transactions ↔
      ∃ t ∈ transactions, monthKeyFromDate t.date = m := by
  unfold allMonthsInTx
  rw [List.mem_insertionSort, mem_foldl_jsSetInsert]
  simp [List.mem_map]

theorem find?_beq_self {l : List String} {m : String} (h : m ∈ l) :
    l.find? (fun x => x == m) = some m := by
  induction l with
  | nil => cases h
  | cons y l ih =>
    rcases List.mem_cons.mp h with rfl | hm
    · simp
    · by_cases hy : (y == m) = true
      · have hym : y = m := by simpa using hy
        subst hym; simp
      · have hy' : (y == m) = false := by simpa using hy
        simp only [List.find?_cons, hy']
        exact ih hm

theorem selectedMonthStats_of_mem (transactions : List Transaction) (m : String)
    (h : m ∈ allMonthsInTx transactions) :
    selectedMonthStats transactions m = mkMonthRow transactions m := by
  unfold selectedMonthStats monthTotals
  rw [List.find?_map]
  show (Option.map (mkMonthRow transactions)
    (List.find? (fun x => x == m) (allMonthsInTx transactions))).getD (zeroMonthRow m) = _
  rw [find?_beq_self h]
  rfl

theorem selectedMonthStats_of_not_mem (transactions : List Transaction) (m : String)
    (h : m ∉ allMonthsInTx transactions) :
    selectedMonthStats transactions m = zeroMonthRow m := by
  unfold selectedMonthStats monthTotals
  rw [List.find?_map]
  show (Option.map (mkMonthRow transactions)
    (List.find? (fun x => x == m) (allMonthsInTx transactions))).getD (zeroMonthRow m) = _
  have hn : List.find? (fun x => x == m) (allMonthsInTx transactions) = none := by
    rw [List.find?_eq_none]
    intro x hx hbeq
    exact h ((by simpa using hbeq : x = m) ▸ hx)
  rw [hn]
  rfl

/-- C6: `selectedMonthStats(monthKey)` is total.  When some entry's derived
month key equals `monthKey` it returns that month's row of the monthly series
(a member of `monthTotals`); otherwise it returns the all-zero row carrying
the requested month key.  In both cases the returned row's `month` field is
the requested key, and no error is possible. -/
theorem selectedMonthStats_spec (transactions : List Transaction) (m : String) :
    (selectedMonthStats transactions m).month = m ∧
    (if transactions.any (fun t => monthKeyFromDate t.date == m)
      then selectedMonthStats transactions m = mkMonthRow transactions m ∧
        mkMonthRow transactions m ∈ monthTotals transactions
      else selectedMonthStats transactions m = zeroMonthRow m) := by
  have hiff : transactions.any (fun t => monthKeyFromDate t.date == m) = true ↔
      m ∈ allMonthsInTx transactions := by
    rw [List.any_eq_true, mem_allMonthsInTx]
    simp
  by_cases h : transactions.any (fun t => monthKeyFromDate t.date == m) = true
  · have hm := hiff.mp h
    have hsel := selectedMonthStats_of_mem transactions m hm
    rw [if_pos h]
    exact ⟨by rw [hsel]; rfl,
      hsel, List.mem_map.mpr ⟨m, hm, rfl⟩⟩
  · have hm := fun hc => h (hiff.mpr hc)
    have hsel := selectedMonthStats_of_not_mem transactions m hm
    rw [if_neg h]
    exact ⟨by rw [hsel]; rfl, hsel⟩

/-! ## Claim C7: JSON export/import round trip -/

/-- C7, counterexample: an entry whose amount is the number NaN serializes as
`null` (`JSON.stringify` cannot represent NaN), so after export + import the
amount reads back as `null`, not NaN: the round trip is not the identity on
every collection value. -/
theorem exportThenImport_counterexample : exportThenImport [c7Tx] ≠ [c7Tx] := by
  decide

/-- One record round-trips when its amount is JSON-safe. -/
theorem decodeTx_encodeTx (t : Transaction) (h : jsonSafe t.amount = true) :
    decodeTx (encodeTx t) = t := by
  obtain ⟨i, d, ty, c, a, de⟩ := t
  cases a with
  | num n =>
    cases n with
    | fin q => cases de <;> rfl
    | nan => simp [jsonSafe, JsNum.isFinite] at h
    | inf => simp [jsonSafe, JsNum.isFinite] at h
    | ninf => simp [jsonSafe, JsNum.isFinite] at h
  | str s => cases de <;> rfl
  | null => cases de <;> rfl
  | undef => cases de <;> rfl
  | boolean b => cases de <;> rfl

/-- C7 (amended): for every Entry collection in which no amount is a
non-finite number — which includes every collection producible by the entry
form or by import, since JSON cannot carry NaN or Infinity — exporting to
JSON and importing it back yields a value-equal collection.  An entry with a
NaN or ±Infinity amount instead comes back with amount `null`. -/
theorem exportThenImport_id (transactions : List Transaction)
    (h : ∀ t ∈ transactions, jsonSafe t.amount = true) :
    exportThenImport transactions = transactions := by
  unfold exportThenImport
  rw [List.map_map]
  conv_rhs => rw [← List.map_id transactions]
  exact List.map_congr_left (fun t ht => decodeTx_encodeTx t (h t ht))

/-- C7 witness: the spec scenario's two-entry collection round-trips
unchanged. -/
theorem exportThenImport_id_witness :
    exportThenImport [wTxIncome, wTxRent] = [wTxIncome, wTxRent] :=
  exportThenImport_id [wTxIncome, wTxRent] (by decide)

/-! ## Claim C4: chart scale maxima -/

theorem foldl_max_init_le (l : List ℚ) : ∀ a : ℚ, a ≤ l.foldl max a := by
  induction l with
  | nil => exact fun a => le_refl a
  | cons x l ih =>
    intro a
    exact le_trans (le_max_left a x) (ih (max a x))

theorem foldl_max_le_of_mem {l : List ℚ} {x : ℚ} (hx : x ∈ l) :
    ∀ a : ℚ, x ≤ l.foldl max a := by
  induction l with
  | nil => cases hx
  | cons y l ih =>
    intro a
    rcases List.mem_cons.mp hx with rfl | hm
    · exact le_trans (le_max_right a x) (foldl_max_init_le l (max a x))
    · exact ih hm (max a y)

theorem foldl_max_choice (l : List ℚ) : ∀ a : ℚ, l.foldl max a = a ∨ l.foldl max a ∈ l := by
  induction l with
  | nil => exact fun a => Or.inl rfl
  | cons x l ih =>
    intro a
    rcases ih (max a x) with h | h
    · rcases max_choice a x with hm | hm
      · exact Or.inl (by rw [List.foldl_cons, h, hm])
      · exact Or.inr (by rw [List.foldl_cons, h, hm]; exact List.mem_cons_self x l)
    · exact Or.inr (List.mem_cons_of_mem x h)

theorem foldl_max_of_all_le (l : List ℚ) :
    ∀ a : ℚ, (∀ x ∈ l, x ≤ a) → l.foldl max a = a := by
  induction l with
  | nil => exact fun a _ => rfl
  | cons x l ih =>
    intro a h
    rw [List.foldl_cons, max_eq_left (h x (List.mem_cons_self x l))]
    exact ih a (fun y hy => h y (List.mem_cons_of_mem x hy))

theorem lineChartMax_of_finite (values : List JsNum)
    (h : ∀ v ∈ values, v.isFinite = true) :
    ∀ a : ℚ, (values.map jabs).foldl jmax (.fin a) =
      .fin ((values.map (fun v => |coerceFin v|)).foldl max a) := by
  induction values with
  | nil => exact fun a => rfl
  | cons v vs ih =>
    intro a
    cases v with
    | fin q =>
      simpa [jabs, jmax, coerceFin] using
        ih (fun u hu => h u (List.mem_cons_of_mem _ hu)) (max a |q|)
    | nan => exact absurd (h .nan (List.mem_cons_self _ _)) (by simp [JsNum.isFinite])
    | inf => exact absurd (h .inf (List.mem_cons_self _ _)) (by simp [JsNum.isFinite])
    | ninf => exact absurd (h .ninf (List.mem_cons_self _ _)) (by simp [JsNum.isFinite])

/-- C4, counterexample: the claim says the scale max is the maximum ABSOLUTE
value floored at 1, which for the single series `[-5]` would be `5`.  The
`BarChart` code takes the raw (signed) values, so it returns `1`. -/
theorem scaleMax_counterexample :
    barChartMax [[JsNum.fin (-5)]] = 1 ∧
    max 1 |coerceFin (JsNum.fin (-5))| = 5 ∧ (1 : ℚ) ≠ 5 := by
  refine ⟨?_, ?_, by norm_num⟩
  · show max 1 (coerceFin (JsNum.fin (-5))) = 1
    rw [max_eq_left (by norm_num [coerceFin])]
  · show max 1 |coerceFin (JsNum.fin (-5))| = 5
    rw [max_eq_right (by norm_num [coerceFin])]
    norm_num [coerceFin]

/-- C4 (amended): the two chart components compute different scale maxima.
`BarChart` takes the maximum of the RAW values (non-finite coerced to 0) —
not of their absolute values — floored at 1: the result is at least 1, an
upper bound of every coerced value, and equal to 1 or attained by one of
them; an all-zero or empty dataset gives exactly 1.  `LineChart` takes the
maximum of the absolute values floored at 1; on all-finite input it equals
`fin` of that maximum, and the empty input gives exactly `fin 1`.  Both
divisors are positive on those inputs. -/
theorem scaleMax_spec (series : List (List JsNum)) (values : List JsNum)
    (v : JsNum) (hv : v ∈ series.flatten)
    (hfin : ∀ u ∈ values, u.isFinite = true) :
    1 ≤ barChartMax series ∧
    coerceFin v ≤ barChartMax series ∧
    (barChartMax series = 1 ∨ ∃ u ∈ series.flatten, coerceFin u = barChartMax series) ∧
    ((∀ u ∈ series.flatten, u = .fin 0) → barChartMax series = 1) ∧
    lineChartMax values = .fin ((values.map (fun u => |coerceFin u|)).foldl max 1) ∧
    1 ≤ (values.map (fun u => |coerceFin u|)).foldl max 1 ∧
    barChartMax ([] : List (List JsNum)) = 1 ∧
    lineChartMax ([] : List JsNum) = .fin 1 := by
  refine ⟨foldl_max_init_le _ 1, ?_, ?_, ?_, lineChartMax_of_finite values hfin 1,
    foldl_max_init_le _ 1, rfl, rfl⟩
  · exact foldl_max_le_of_mem (List.mem_map_of_mem coerceFin hv) 1
  · rcases foldl_max_choice ((series.flatten).map coerceFin) 1 with h | h
    · exact Or.inl h
    · rcases List.mem_map.mp h with ⟨u, hu, hue⟩
      exact Or.inr ⟨u, hu, hue⟩
  · intro hz
    exact foldl_max_of_all_le _ 1 (fun x hx => by
      rcases List.mem_map.mp hx with ⟨u, hu, hue⟩
      rw [← hue, hz u hu]
      norm_num [coerceFin])

/-- C4 witness: the amended theorem applied to the all-zero one-bar series
and the finite values `[fin 3]`. -/
theorem scaleMax_spec_witness :
    1 ≤ barChartMax [[JsNum.fin 0]] ∧
    coerceFin (JsNum.fin 0) ≤ barChartMax [[JsNum.fin 0]] ∧
    (barChartMax [[JsNum.fin 0]] = 1 ∨
      ∃ u ∈ ([[JsNum.fin 0]] : List (List JsNum)).flatten,
        coerceFin u = barChartMax [[JsNum.fin 0]]) ∧
    ((∀ u ∈ ([[JsNum.fin 0]] : List (List JsNum)).flatten, u = .fin 0) →
      barChartMax [[JsNum.fin 0]] = 1) ∧
    lineChartMax [JsNum.fin 3] =
      .fin (([JsNum.fin 3].map (fun u => |coerceFin u|)).foldl max 1) ∧
    1 ≤ (([JsNum.fin 3]).map (fun u => |coerceFin u|)).foldl max 1 ∧
    barChartMax ([] : List (List JsNum)) = 1 ∧
    lineChartMax ([] : List JsNum) = .fin 1 :=
  scaleMax_spec [[JsNum.fin 0]] [JsNum.fin 3] (JsNum.fin 0)
    (by decide) (by decide)

/-! ## Claim C3: the top-categories ranking -/

theorem cats_pairwise_idx (t : TxType) :
    (CATEGORIES t).Pairwise (fun c d => catIdx t c < catIdx t d) := by
  cases t <;> decide

theorem sublist_pair_of_mem {α : Type} {x y : α} {l : List α}
    (hx : x ∈ l) (hy : y ∈ l) (hne : x ≠ y) :
    List.Sublist [x, y] l ∨ List.Sublist [y, x] l := by
  induction l with
  | nil => cases hx
  | cons a l ih =>
    rcases List.mem_cons.mp hx with rfl | hx'
    · have hy' : y ∈ l := by
        rcases List.mem_cons.mp hy with rfl | h
        · exact absurd rfl hne
        · exact h
      exact Or.inl ((List.singleton_sublist.mpr hy').cons₂ x)
    · rcases List.mem_cons.mp hy with rfl | hy'
      · exact Or.inr ((List.singleton_sublist.mpr hx').cons₂ y)
      · rcases ih hx' hy' with h | h
        · exact Or.inl (h.cons a)
        · exact Or.inr (h.cons a)

theorem ne_of_pair_sublist_nodup {α : Type} [DecidableEq α] {x y : α} {l : List α}
    (hnd : l.Nodup) (h : List.Sublist [x, y] l) : x ≠ y := by
  intro heq
  subst heq
  have h2 : List.count x [x, x] ≤ List.count x l := h.count_le x
  have h1 : List.count x l ≤ 1 := List.nodup_iff_count_le_one.mp hnd x
  simp [List.count_cons] at h2
  omega

theorem eq_of_pair_sublists {α : Type} {x y : α} {l : List α} (hnd : l.Nodup)
    (h1 : List.Sublist [x, y] l) (h2 : List.Sublist [y, x] l) : x = y := by
  induction l with
  | nil => cases h1
  | cons a l ih =>
    have ha : a ∉ l := (List.nodup_cons.mp hnd).1
    have hnd' : l.Nodup := (List.nodup_cons.mp hnd).2
    cases h1 with
    | cons _ h1' =>
      cases h2 with
      | cons _ h2' => exact ih hnd' h1' h2'
      | cons₂ _ h2' =>
        exact absurd (h1'.subset (by simp)) ha
    | cons₂ _ h1' =>
      cases h2 with
      | cons _ h2' =>
        exact absurd (h2'.subset (by simp)) ha
      | cons₂ _ h2' => rfl

/-- C3, counterexample: the claim includes every category with NON-ZERO
total, but the code filters `total > 0`: a category whose tracked total is
negative (a refund month) is excluded.  With a single -50 Rent expense the
ranking is empty although Rent's total is -50 ≠ 0. -/
theorem topCategories_counterexample :
    topExpenses [c3Tx] "2026-01" = [] ∧
    sumForMonthTypeCategory [c3Tx] "2026-01" .Expenses "Rent" ≠ .fin 0 ∧
    "Rent" ∈ CATEGORIES .Expenses := by
  refine ⟨?_, ?_, by decide⟩
  · with_unfolding_all decide
  · with_unfolding_all decide

/-- The comparator sort of positively-filtered rows is ordered by descending
total with ties resolved by the original (declaration) position: stability of
the stable sort. -/
theorem insertionSort_filter_pairwise (idx : CatRow → ℕ) (rows : List CatRow)
    (hrows : rows.Pairwise (fun a b => idx a < idx b)) :
    ((rows.filter (fun r => jgt r.total (.fin 0))).insertionSort rowLE).Pairwise
      (fun a b => jgeSort a.total b.total = true ∧
        (a.total = b.total → idx a < idx b)) := by
  have hfilt := hrows.filter (fun r => jgt r.total (.fin 0))
  have hndf : (rows.filter (fun r => jgt r.total (.fin 0))).Nodup :=
    hfilt.imp (fun h heq => absurd (heq ▸ h) (lt_irrefl _))
  have hperm := List.perm_insertionSort rowLE
    (rows.filter (fun r => jgt r.total (.fin 0)))
  have hnds := hperm.nodup_iff.mpr hndf
  have hsorted := List.sorted_insertionSort rowLE
    (rows.filter (fun r => jgt r.total (.fin 0)))
  rw [List.pairwise_iff_forall_sublist]
  intro x y hxy
  refine ⟨List.pairwise_iff_forall_sublist.mp hsorted hxy, fun heq => ?_⟩
  have hxny := ne_of_pair_sublist_nodup hnds hxy
  have hxf : x ∈ rows.filter (fun r => jgt r.total (.fin 0)) :=
    hperm.mem_iff.mp (hxy.subset (by simp : x ∈ [x, y]))
  have hyf : y ∈ rows.filter (fun r => jgt r.total (.fin 0)) :=
    hperm.mem_iff.mp (hxy.subset (by simp : y ∈ [x, y]))
  rcases sublist_pair_of_mem hxf hyf hxny with h | h
  · exact List.pairwise_iff_forall_sublist.mp hfilt h
  · exfalso
    have hryx : rowLE y x := by
      unfold rowLE
      rw [heq]
      exact jgeSort_refl y.total
    have hsub := List.pair_sublist_insertionSort hryx h
    exact hxny (eq_of_pair_sublists hnds hxy hsub)

/-- C3 (amended): `topCategories(m, k, 5)` contains exactly the categories of
kind `k` (rows of the fixed list, carrying their tracked totals) whose total
is STRICTLY POSITIVE — zero-total categories are excluded, and so are
negative-total ones, which the original claim ("non-zero") wrongly included —
sorted descending by total with ties broken by the fixed declaration order,
truncated to at most 5: the length never exceeds 5; every returned row is a
fixed-list category with its positive tracked total; the rows are pairwise in
descending comparator order with ties in declaration order; and every
positive-total category either appears or the ranking is already full at 5. -/
theorem topCategories_spec (transactions : List Transaction) (m : String) (t : TxType) :
    (topCategories transactions m t).length ≤ 5 ∧
    (∀ r ∈ topCategories transactions m t,
      r.category ∈ CATEGORIES t ∧
      r.total = sumForMonthTypeCategory transactions m t r.category ∧
      jgt r.total (.fin 0) = true) ∧
    (topCategories transactions m t).Pairwise (fun a b =>
      jgeSort a.total b.total = true ∧
      (a.total = b.total → catIdx t a.category < catIdx t b.category)) ∧
    (∀ c ∈ CATEGORIES t,
      jgt (sumForMonthTypeCategory transactions m t c) (.fin 0) = true →
      c ∈ (topCategories transactions m t).map CatRow.category ∨
        (topCategories transactions m t).length = 5) := by
  have hrows : (catRowsFor transactions m t).Pairwise
      (fun a b => catIdx t a.category < catIdx t b.category) := by
    unfold catRowsFor
    rw [List.pairwise_map]
    exact cats_pairwise_idx t
  have hperm := List.perm_insertionSort rowLE
    ((catRowsFor transactions m t).filter (fun r => jgt r.total (.fin 0)))
  refine ⟨List.length_take_le 5 _, ?_, ?_, ?_⟩
  · intro r hr
    have hrs : r ∈ (((catRowsFor transactions m t).filter
        (fun r => jgt r.total (.fin 0))).insertionSort rowLE) :=
      (List.take_sublist 5 _).subset hr
    have hrf := hperm.mem_iff.mp hrs
    have hpos := (List.mem_filter.mp hrf).2
    obtain ⟨c, hc, heqr⟩ := List.mem_map.mp (List.mem_of_mem_filter hrf)
    refine ⟨?_, ?_, hpos⟩
    · rw [← heqr]
      exact hc
    · rw [← heqr]
  · exact List.Pairwise.sublist (List.take_sublist 5 _)
      (insertionSort_filter_pairwise (fun r => catIdx t r.category) _ hrows)
  · intro c hc hpos
    have hrow : CatRow.mk c (sumForMonthTypeCategory transactions m t c) ∈
        catRowsFor transactions m t := by
      unfold catRowsFor
      exact List.mem_map.mpr ⟨c, hc, rfl⟩
    have hfm : CatRow.mk c (sumForMonthTypeCategory transactions m t c) ∈
        (catRowsFor transactions m t).filter (fun r => jgt r.total (.fin 0)) :=
      List.mem_filter.mpr ⟨hrow, hpos⟩
    have hsm : CatRow.mk c (sumForMonthTypeCategory transactions m t c) ∈
        ((catRowsFor transactions m t).filter
          (fun r => jgt r.total (.fin 0))).insertionSort rowLE :=
      (List.mem_insertionSort rowLE).mpr hfm
    by_cases hlen : (((catRowsFor transactions m t).filter
        (fun r => jgt r.total (.fin 0))).insertionSort rowLE).length ≤ 5
    · left
      refine List.mem_map.mpr
        ⟨CatRow.mk c (sumForMonthTypeCategory transactions m t c), ?_, rfl⟩
      show _ ∈ topCategories transactions m t
      unfold topCategories
      rw [List.take_of_length_le hlen]
      exact hsm
    · right
      show (topCategories transactions m t).length = 5
      unfold topCategories
      rw [List.length_take]
      omega
